import Mathlib

/-!
Verification development for the image-acquisition and allocation engine of the
dontgoogleme repository (src/broll_core.py, src/unified_app.py, src/srt_to_images.py).

Python strings are modelled as Lean `String`/`List Char`; `str.lower()` and
`str.strip()` are modelled at the ASCII level (the full Unicode case folding of
Python is not modelled; every character class appearing in the code is ASCII, so
the properties proved here are insensitive to that simplification). Python ints
are modelled as `Int`, with Python floor division `//` rendered as `Int.fdiv`.
External collaborators (the spaCy pipeline, the Playwright page, the HTTP
client) are modelled as environments supplying the data the code reads from
them, universally quantified in every theorem.
-/

/-! ## Character classes and small string helpers (broll_core.py) -/

/-- Model of the Python regex class `\s` restricted to ASCII: space, tab,
newline, vertical tab, form feed, carriage return. -/
def isPySpace (c : Char) : Bool :=
  c.toNat = 32 || (9 ≤ c.toNat && c.toNat ≤ 13)

/-- Characters kept by the substitution `re.sub(r"[^a-z0-9_\- ]+", "", s)` in
`safe_folder_name` (broll_core.py line 53): the class `[a-z0-9_\- ]`. -/
def folderKeepChar (c : Char) : Bool :=
  (97 ≤ c.toNat && c.toNat ≤ 122) || (48 ≤ c.toNat && c.toNat ≤ 57) ||
    c.toNat = 95 || c.toNat = 45 || c.toNat = 32

/-- The output alphabet claimed for folder names: `[a-z0-9_-]` (no space). -/
def outTokenChar (c : Char) : Bool :=
  (97 ≤ c.toNat && c.toNat ≤ 122) || (48 ≤ c.toNat && c.toNat ≤ 57) ||
    c.toNat = 95 || c.toNat = 45

/-- ASCII model of Python `str.lower()` applied to one character. -/
def lowerChar (c : Char) : Char :=
  if 65 ≤ c.toNat && c.toNat ≤ 90 then Char.ofNat (c.toNat + 32) else c

/-- Model of Python `str.strip()`: drop whitespace from both ends. -/
def pyStrip (l : List Char) : List Char :=
  ((l.dropWhile isPySpace).reverse.dropWhile isPySpace).reverse

/-- Model of `re.sub(r"\s+", "_", s)` (broll_core.py line 54): each maximal run
of whitespace characters becomes a single underscore. The boolean argument
records whether the previous character was part of a whitespace run. -/
def collapseWsAux : Bool → List Char → List Char
  | _, [] => []
  | prevWs, c :: rest =>
    if isPySpace c then
      if prevWs then collapseWsAux true rest
      else '_' :: collapseWsAux true rest
    else c :: collapseWsAux false rest

/-- The cleaned character list of `safe_folder_name` before the final
empty-check and 80-character truncation: strip, lower, remove characters
outside `[a-z0-9_\- ]`, collapse whitespace runs to underscores. -/
def folderClean (s : String) : List Char :=
  collapseWsAux false (((pyStrip s.toList).map lowerChar).filter folderKeepChar)

/-- Model of `safe_folder_name` (broll_core.py lines 51-55). -/
def safe_folder_name (s : String) : String :=
  let l := folderClean s
  if l.isEmpty then "keyword" else (l.take 80).asString

/-! ## Keyword extraction (broll_core.py, extract_keywords) -/

/-- First-character class of the regex `^[a-z0-9][a-z0-9\-\_ ]*$`
(broll_core.py line 130). -/
def isKwStart (c : Char) : Bool :=
  (97 ≤ c.toNat && c.toNat ≤ 122) || (48 ≤ c.toNat && c.toNat ≤ 57)

/-- Tail-character class of the regex `^[a-z0-9][a-z0-9\-\_ ]*$`:
`[a-z0-9\-\_ ]`. -/
def isKwChar (c : Char) : Bool :=
  (97 ≤ c.toNat && c.toNat ≤ 122) || (48 ≤ c.toNat && c.toNat ≤ 57) ||
    c.toNat = 45 || c.toNat = 95 || c.toNat = 32

/-- Model of `re.match(r"^[a-z0-9][a-z0-9\-\_ ]*$", t)` succeeding. The `$`
anchor behaves as end-of-string here because `t` has already been stripped, so
it cannot end in a newline. -/
def kwMatch : List Char → Bool
  | [] => false
  | c :: rest => isKwStart c && rest.all isKwChar

/-- One spaCy token, as read by `extract_keywords`: its stop-word flag, its
part-of-speech tag and its lemma. The spaCy pipeline is an external
collaborator, so token lists are universally quantified inputs. -/
structure Token where
  is_stop : Bool
  pos_ : String
  lemma_ : String

/-- The filter body of `extract_keywords` (broll_core.py lines 122-132): skip
stop words and non-NOUN/PROPN tokens, normalize the lemma, skip lemmas shorter
than 3 characters or failing the keyword regex; otherwise return the
normalized lemma counted into the frequency table. -/
def tokenKey (tok : Token) : Option String :=
  if tok.is_stop then none
  else if tok.pos_ ≠ "NOUN" && tok.pos_ ≠ "PROPN" then none
  else
    let t := (pyStrip tok.lemma_.toList).map lowerChar
    if t.length < 3 then none
    else if kwMatch t then some t.asString
    else none

/-- Model of `freq[t] = freq.get(t, 0) + 1` on an insertion-ordered dict. -/
def bump (freq : List (String × Nat)) (t : String) : List (String × Nat) :=
  if (freq.lookup t).isSome then
    freq.map (fun kv => if kv.1 = t then (kv.1, kv.2 + 1) else kv)
  else freq ++ [(t, 1)]

/-- The frequency-building loop of `extract_keywords`. -/
def buildFreq : List Token → List (String × Nat) → List (String × Nat)
  | [], freq => freq
  | tok :: rest, freq =>
    match tokenKey tok with
    | none => buildFreq rest freq
    | some t => buildFreq rest (bump freq t)

/-- Code-point lexicographic strict order on character lists, the model of
Python string comparison. -/
def lexLt : List Char → List Char → Bool
  | [], [] => false
  | [], _ :: _ => true
  | _ :: _, [] => false
  | a :: as, b :: bs =>
    if a.toNat < b.toNat then true
    else if b.toNat < a.toNat then false
    else lexLt as bs

/-- The sort key of `sorted(freq.items(), key=lambda kv: (-kv[1], kv[0]))`:
descending count, then ascending key. -/
def freqLe (a b : String × Nat) : Bool :=
  b.2 < a.2 || (a.2 == b.2 && !(lexLt b.1.toList a.1.toList))

/-- Insertion into a list sorted by `freqLe`. -/
def freqInsert (a : String × Nat) : List (String × Nat) → List (String × Nat)
  | [] => [a]
  | b :: rest => if freqLe a b then a :: b :: rest else b :: freqInsert a rest

/-- Model of Python `sorted` with the frequency key. Only the fact that the
result is a permutation of the input matters for the claims proved below. -/
def freqSort : List (String × Nat) → List (String × Nat)
  | [] => []
  | a :: rest => freqInsert a (freqSort rest)

/-- Model of `extract_keywords` (broll_core.py lines 117-136), parameterized
over the spaCy token list produced for the input text. The Python slice
`items[:max_keywords]` is modelled for non-negative `max_keywords`, the only
regime the claims quantify over. -/
def extract_keywords (doc : List Token) (max_keywords : Int) : List String :=
  let freq := buildFreq doc []
  let items := freqSort freq
  (items.take max_keywords.toNat).map Prod.fst

/-! ## Concept allocator (broll_core.py, compute_keyword_image_targets) -/

/-- The four settings values read by `compute_keyword_image_targets`, each
through `int(settings.get(key, default))`. -/
structure AllocSettings where
  max_keywords : Int
  images_per_keyword : Int
  max_total_images : Int
  min_images_per_srt : Int

/-- The allocation walk of `compute_keyword_image_targets` (broll_core.py
lines 375-382): assign `min per_kw remaining` to each keyword in order and
stop once the remaining budget is exhausted. -/
def allocLoop (per_kw : Int) : List String → Int → List (String × Int)
  | [], _ => []
  | kw :: rest, remaining =>
    if remaining ≤ 0 then []
    else
      let need := min per_kw remaining
      (kw, need) :: allocLoop per_kw rest (remaining - need)

/-- Model of `compute_keyword_image_targets` (broll_core.py lines 349-384),
parameterized over the spaCy token list for the transcript text. -/
def compute_keyword_image_targets (doc : List Token) (s : AllocSettings) :
    List (String × Int) :=
  let keywords := extract_keywords doc s.max_keywords
  if keywords.isEmpty then []
  else
    let n : Int := keywords.length
    let total_if_default := s.images_per_keyword * n
    let target_total := max s.min_images_per_srt (min total_if_default s.max_total_images)
    let per_kw := max 1 ((target_total + n - 1).fdiv n)
    let per_kw2 := min per_kw s.max_total_images
    allocLoop per_kw2 keywords s.max_total_images

/-! ## Settings persistence (broll_core.load_settings and
UnifiedApp._load_app_settings) -/

/-- JSON scalar values, the value space of the persisted settings document. -/
inductive JVal where
  | jint (n : Int)
  | jstr (s : String)
  | jbool (b : Bool)
  | jnull
deriving DecidableEq, Repr

/-- Content of the settings file as the loader observes it: the file is
absent, parses as a JSON object, or fails to parse. -/
inductive FileContent where
  | absent
  | json (data : List (String × JVal))
  | malformed
deriving DecidableEq, Repr

/-- `DEFAULT_SETTINGS` of broll_core.py (lines 18-29), in dict insertion
order. -/
def DEFAULT_SETTINGS : List (String × JVal) :=
  [("whisper_model", .jstr "base"),
   ("images_per_keyword", .jint 3),
   ("max_keywords", .jint 20),
   ("max_total_images", .jint 60),
   ("max_scrolls_per_keyword", .jint 6),
   ("use_visible_browser", .jbool true),
   ("use_existing_chrome_profile", .jbool false),
   ("chrome_profile_dir", .jstr ""),
   ("min_images_per_srt", .jint 20)]

/-- Model of Python `base.update(upd)` on dicts: keys already in `base` keep
their position and take the value from `upd`; keys of `upd` not in `base` are
appended in order. -/
def dictUpdate (base upd : List (String × JVal)) : List (String × JVal) :=
  base.map (fun kv =>
    match upd.lookup kv.1 with
    | some w => (kv.1, w)
    | none => kv) ++
  upd.filter (fun kv => (base.lookup kv.1).isNone)

/-- Model of `load_settings` (broll_core.py lines 32-42): a missing file and a
file that fails to parse both yield the defaults; a parsed object is filtered
to the recognized keys and merged over the defaults. -/
def load_settings (file : FileContent) : List (String × JVal) :=
  match file with
  | .absent => DEFAULT_SETTINGS
  | .malformed => DEFAULT_SETTINGS
  | .json data =>
    dictUpdate DEFAULT_SETTINGS
      (data.filter (fun kv => (DEFAULT_SETTINGS.lookup kv.1).isSome))

/-- The `defaults` dict of `UnifiedApp._load_app_settings`
(unified_app.py lines 502-513), in insertion order. -/
def APP_DEFAULTS : List (String × JVal) :=
  [("whisper_model", .jstr "base"),
   ("images_per_concept", .jint 3),
   ("max_concepts_per_srt", .jint 15),
   ("max_total_images", .jint 50),
   ("max_scrolls_per_keyword", .jint 6),
   ("use_visible_browser", .jbool true),
   ("use_existing_chrome_profile", .jbool false),
   ("chrome_profile_dir", .jstr ""),
   ("srt_youtube_enabled", .jbool false),
   ("srt_other_enabled", .jbool false)]

/-- Model of `UnifiedApp._load_app_settings` (unified_app.py lines 500-523):
only `FileNotFoundError` is caught, so an absent file yields the defaults, a
parsed object is merged over the defaults with no key filtering, and a file
that fails to parse raises `json.JSONDecodeError`, modelled as an error
result. -/
def load_app_settings (file : FileContent) :
    Except String (List (String × JVal)) :=
  match file with
  | .absent => .ok APP_DEFAULTS
  | .malformed => .error "JSONDecodeError"
  | .json data => .ok (dictUpdate APP_DEFAULTS data)

/-! ## Session driver (broll_core.google_images_download)

The Playwright page and the HTTP client are external collaborators. A
`DriverEnv` records everything one invocation reads from them: whether the
navigation steps raise, whether any search-input selector matches, and for
each scroll cycle the list of thumbnails in the DOM, where each thumbnail
carries the outcome of clicking it, the `src` attributes its detail pane
offers, and whether the HTTP fetch of the chosen URL succeeds. -/

/-- Outcome of processing one thumbnail (broll_core.py lines 246-318). -/
structure ThumbOutcome where
  clickOk : Bool
  paneRaise : Bool
  srcs : List (Option String)
  fetchOk : Bool

/-- Environment of one `google_images_download` invocation. -/
structure DriverEnv where
  navRaise : Bool
  inputFound : Bool
  thumbs : Nat → List ThumbOutcome
  scrollRaise : Nat → Bool

/-- Observable events of one invocation: directory creation, opening and
closing the persistent browsing context, saving a file (name and source URL),
and the driver shutdown performed when the `async with async_playwright()`
block exits. -/
inductive Ev where
  | ensureDir (d : String)
  | openContext
  | closeContext
  | write (name url : String)
  | stopDriver
deriving DecidableEq, Repr

/-- Substring test on character lists, the model of Python `"x" in s`. -/
def listLeads : List Char → List Char → Bool
  | [], _ => true
  | _ :: _, [] => false
  | a :: as, b :: bs => a == b && listLeads as bs

/-- Whether `sub` occurs as a contiguous substring of `s`. -/
def containsSub (sub s : List Char) : Bool :=
  match s with
  | [] => sub.isEmpty
  | _ :: t => listLeads sub s || containsSub sub t

/-- The candidate-URL preference of broll_core.py lines 275-295: the first
`src` that is `http`-prefixed and not from `gstatic.com`; failing that, the
first `http`-prefixed `src`. A read failure or a falsy `src` is `none`. -/
def pickUrl (srcs : List (Option String)) : Option String :=
  match (srcs.filterMap id).find?
      (fun s => s.startsWith "http" && !containsSub "gstatic.com".toList s.toList) with
  | some u => some u
  | none => (srcs.filterMap id).find? (fun s => s.startsWith "http")

/-- Python `keyword.replace(' ', '_').replace('/', '_')` followed by a length
cap, used for file naming (broll_core.py lines 304 and 308). -/
def safeKeyword (kw : String) (cap : Nat) : String :=
  ((kw.toList.map (fun c => if c = ' ' then '_' else if c = '/' then '_' else c)).take cap).asString

/-- Python `os.path.join` for a relative second component. -/
def pyJoin (d f : String) : String := d ++ "/" ++ f

/-- Python list indexing, including the negative-index wrap; the call sites
guard only the upper bound. -/
def pyGet (l : List String) (i : Int) : String :=
  if 0 ≤ i then l.getD i.toNat "" else l.getD (((l.length : Int) + i).toNat) ""

/-- Python `f"{n:02d}"`. -/
def pad2 (n : Int) : String :=
  let s := toString n
  if s.length < 2 then "0" ++ s else s

/-- File naming of broll_core.py lines 301-309: timestamp-based when
requested and a timestamp is available at `start_counter + saved`, otherwise
keyword plus zero-padded counter. -/
def mkFilename (out_dir keyword : String) (tbn : Bool) (timestamps : List String)
    (start_counter saved : Int) : String :=
  if tbn && !timestamps.isEmpty && start_counter + saved < (timestamps.length : Int) then
    pyJoin out_dir (pyGet timestamps (start_counter + saved) ++ "_" ++ safeKeyword keyword 30 ++ ".jpg")
  else
    pyJoin out_dir (safeKeyword keyword 20 ++ "_" ++ pad2 (saved + 1) ++ ".jpg")

/-- Mutable state of one invocation: the session-local `seen` URL set, the
`saved` counter, and the files written so far (name, source URL). -/
structure DState where
  seen : List String
  saved : Int
  writes : List (String × String)

/-- The inner thumbnail loop (broll_core.py lines 246-318). The returned flag
is `true` when an uncaught exception aborts the invocation (a failure in the
un-guarded detail-pane interaction); click failures and fetch failures are
caught and skip to the next thumbnail, exactly as in the source. -/
def procThumbs (images_needed : Int) (out_dir keyword : String) (tbn : Bool)
    (timestamps : List String) (start_counter : Int) :
    List ThumbOutcome → DState → DState × Bool
  | [], st => (st, false)
  | t :: rest, st =>
    if st.saved ≥ images_needed then (st, false)
    else if !t.clickOk then
      procThumbs images_needed out_dir keyword tbn timestamps start_counter rest st
    else if t.paneRaise then (st, true)
    else
      match pickUrl t.srcs with
      | none => procThumbs images_needed out_dir keyword tbn timestamps start_counter rest st
      | some url =>
        if url ∈ st.seen then
          procThumbs images_needed out_dir keyword tbn timestamps start_counter rest st
        else
          let fname := mkFilename out_dir keyword tbn timestamps start_counter st.saved
          if t.fetchOk then
            procThumbs images_needed out_dir keyword tbn timestamps start_counter rest
              ⟨url :: st.seen, st.saved + 1, st.writes ++ [(fname, url)]⟩
          else
            procThumbs images_needed out_dir keyword tbn timestamps start_counter rest
              ⟨url :: st.seen, st.saved, st.writes⟩

/-- The scroll loop (broll_core.py lines 221-325): up to `max_scrolls` cycles,
ending early when no thumbnails are found or the quota is met; the flag is
`true` when an uncaught exception aborts the invocation. -/
def runScrolls (env : DriverEnv) (images_needed : Int) (out_dir keyword : String)
    (tbn : Bool) (timestamps : List String) (start_counter : Int) :
    Nat → Nat → DState → DState × Bool
  | _, 0, st => (st, false)
  | i, b + 1, st =>
    let thumbs := env.thumbs i
    if thumbs.isEmpty then (st, false)
    else
      match procThumbs images_needed out_dir keyword tbn timestamps start_counter thumbs st with
      | (st', true) => (st', true)
      | (st', false) =>
        if st'.saved ≥ images_needed then (st', false)
        else if env.scrollRaise i then (st', true)
        else runScrolls env images_needed out_dir keyword tbn timestamps start_counter (i + 1) b st'

/-- Model of `google_images_download` (broll_core.py lines 140-328). The
session-local `seen` set starts empty on every invocation (line 211). On
normal completion the context is closed explicitly (line 327) and the saved
count is returned; when an exception escapes, the `async with
async_playwright()` block still exits, which stops the driver and with it
every browsing context it launched, modelled by the `stopDriver` event that
ends the trace on every path. -/
def google_images_download (env : DriverEnv) (keyword out_dir : String)
    (images_needed max_scrolls : Int) (tbn : Bool) (timestamps : List String)
    (start_counter : Int) : List Ev × Except String Int :=
  let pre := [Ev.ensureDir out_dir, Ev.openContext]
  if env.navRaise then (pre ++ [Ev.stopDriver], .error "navigation failed")
  else if !env.inputFound then
    (pre ++ [Ev.stopDriver], .error "Could not find Google Images search input")
  else
    match runScrolls env images_needed out_dir keyword tbn timestamps start_counter 0
        max_scrolls.toNat ⟨[], 0, []⟩ with
    | (st, true) =>
      (pre ++ st.writes.map (fun w => Ev.write w.1 w.2) ++ [Ev.stopDriver], .error "exception")
    | (st, false) =>
      (pre ++ st.writes.map (fun w => Ev.write w.1 w.2) ++ [Ev.closeContext, Ev.stopDriver],
       .ok st.saved)

/-- The files saved according to a trace: name and source URL of each write
event. -/
def writesOf (trace : List Ev) : List (String × String) :=
  trace.filterMap (fun e =>
    match e with
    | .write n u => some (n, u)
    | _ => none)

/-- Whether an event releases the browsing context: the explicit
`context.close()` or the driver shutdown at the exit of the `async with`
block. -/
def isRelease (e : Ev) : Bool :=
  match e with
  | .closeContext => true
  | .stopDriver => true
  | _ => false

/-- Every `openContext` event in the trace is followed by a release event. -/
def releasesAfter : List Ev → Bool
  | [] => true
  | Ev.openContext :: rest => rest.any isRelease && releasesAfter rest
  | _ :: rest => releasesAfter rest

/-! ## Fallback orchestrator and harvest loop
(unified_app.JobProcessor._download_images, lines 388-455) -/

/-- One Session Driver invocation as recorded by the orchestrator: the query,
the target directory, the requested count and the returned result. -/
structure AttemptRec where
  query : String
  dir : String
  requested : Int
  result : Except String Int
deriving Repr

/-- The per-concept body of `_download_images` (unified_app.py lines 411-450):
a primary invocation for the concept text; if it returns fewer images than
requested, a second invocation with the query suffixed by " Wikipedia"
requesting exactly the shortfall, into the same directory, with a start
counter advanced by the primary result. Each invocation starts a fresh
session with an empty `seen` set, by definition of `google_images_download`. -/
def conceptDownload (env1 env2 : DriverEnv) (concept images_dir : String)
    (images_needed max_scrolls : Int) (timestamps : List String)
    (image_counter : Int) : List AttemptRec × Except String Int :=
  match google_images_download env1 concept images_dir images_needed max_scrolls
      true timestamps image_counter with
  | (_, .error e) => ([⟨concept, images_dir, images_needed, .error e⟩], .error e)
  | (_, .ok saved) =>
    let a1 : AttemptRec := ⟨concept, images_dir, images_needed, .ok saved⟩
    let wiki_needed := images_needed - saved
    if wiki_needed > 0 then
      let wiki_keyword := concept ++ " Wikipedia"
      match google_images_download env2 wiki_keyword images_dir wiki_needed max_scrolls
          true timestamps (image_counter + saved) with
      | (_, .error e) =>
        ([a1, ⟨wiki_keyword, images_dir, wiki_needed, .error e⟩], .error e)
      | (_, .ok wiki_saved) =>
        ([a1, ⟨wiki_keyword, images_dir, wiki_needed, .ok wiki_saved⟩],
         .ok (saved + wiki_saved))
    else ([a1], .ok (saved + 0))

/-- The settings fields read by `_download_images`. -/
structure JobSettings where
  images_per_concept : Int
  max_total_images : Int
  max_scrolls_per_keyword : Int

/-- One iteration of the harvest loop as recorded for verification: the
concept, the effective need requested for it, the running total of saved
images when the iteration began, and the Session Driver attempts issued. -/
structure ConceptRec where
  concept : String
  effNeed : Int
  totalBefore : Int
  attempts : List AttemptRec
deriving Repr

/-- The harvest loop of `_download_images` (unified_app.py lines 399-455):
for each concept, the per-concept demand `max 1 images_per_concept` is clamped
against the remaining global budget, the fallback orchestrator runs for the
clamped need, and the loop breaks once the running total reaches
`max_total_images`. Browser behavior per concept is supplied by `envs`. -/
def downloadImagesLoop (envs : Nat → DriverEnv × DriverEnv) (s : JobSettings)
    (timestamps : List String) (images_dir : String) :
    List String → Nat → Int → Int → List ConceptRec × Except String Int
  | [], _, total, _ => ([], .ok total)
  | concept :: rest, i, total, counter =>
    let ipc0 := max 1 s.images_per_concept
    let ipc := if total + ipc0 > s.max_total_images
      then max 1 (s.max_total_images - total) else ipc0
    if ipc ≤ 0 then ([], .ok total)
    else
      match conceptDownload (envs i).1 (envs i).2 concept images_dir ipc
          s.max_scrolls_per_keyword timestamps counter with
      | (atts, .error e) => ([⟨concept, ipc, total, atts⟩], .error e)
      | (atts, .ok saved_total) =>
        let total' := total + saved_total
        let counter' := counter + saved_total
        if total' ≥ s.max_total_images then ([⟨concept, ipc, total, atts⟩], .ok total')
        else
          let r := downloadImagesLoop envs s timestamps images_dir rest (i + 1) total' counter'
          (⟨concept, ipc, total, atts⟩ :: r.1, r.2)

/-- Model of `JobProcessor._download_images` over a concept list, starting
with zero saved images. -/
def download_images (envs : Nat → DriverEnv × DriverEnv) (s : JobSettings)
    (timestamps : List String) (images_dir : String) (concepts : List String) :
    List ConceptRec × Except String Int :=
  downloadImagesLoop envs s timestamps images_dir concepts 0 0 0

/-! ## Remaining definitions used by the verification -/

/-- Driver invariant carried through the scroll and thumbnail loops: the saved
counter is non-negative and counts the written files, the source URLs of the
written files are pairwise distinct and all recorded in the session `seen`
set, and every written file lies in the target directory. -/
def DInv (out_dir : String) (st : DState) : Prop :=
  0 ≤ st.saved ∧ (st.writes.length : Int) = st.saved ∧
    (st.writes.map Prod.snd).Nodup ∧
    (∀ u ∈ st.writes.map Prod.snd, u ∈ st.seen) ∧
    (∀ w ∈ st.writes, ∃ b, w.1 = pyJoin out_dir b)

/-- A driver environment in which navigation succeeds, the search input is
found, and no scroll cycle ever shows a thumbnail: the invocation ends after
the first cycle with zero images saved. Used as a concrete witness input. -/
def envNoThumbs : DriverEnv where
  navRaise := false
  inputFound := true
  thumbs := fun _ => []
  scrollRaise := fun _ => false

/-! ## Theorems -/

section AllocatorProofs

theorem allocLoop_bounds (per_kw : Int) (hpk : 1 ≤ per_kw) :
    ∀ (kws : List String) (remaining : Int), 0 ≤ remaining →
      ((allocLoop per_kw kws remaining).map Prod.snd).sum ≤ remaining ∧
      ∀ e ∈ allocLoop per_kw kws remaining, 1 ≤ e.2 := by
  intro kws
  induction kws with
  | nil => intro remaining h; simp [allocLoop]; exact h
  | cons kw rest ih =>
    intro remaining hrem
    by_cases hz : remaining ≤ 0
    · simp [allocLoop, hz]; omega
    · have hrec := ih (remaining - min per_kw remaining) (by omega)
      simp only [allocLoop, if_neg hz, List.map_cons, List.sum_cons, List.mem_cons]
      constructor
      · omega
      · intro e he
        rcases he with he | he
        · subst he; simp; omega
        · exact hrec.2 e he

end AllocatorProofs

/-- Claim C1: for every settings map with `max_keywords ≥ 1`,
`images_per_keyword ≥ 1`, `max_total_images ≥ 1` and `min_images_per_srt ≥ 0`,
and every transcript (modelled by the token list its NLP analysis yields), the
quota list returned by `compute_keyword_image_targets` has
`sum of imagesNeeded ≤ max_total_images` and every entry has
`imagesNeeded ≥ 1`. -/
theorem alloc_budget_invariant (doc : List Token) (s : AllocSettings)
    (h1 : 1 ≤ s.max_keywords) (h2 : 1 ≤ s.images_per_keyword)
    (h3 : 1 ≤ s.max_total_images) (h4 : 0 ≤ s.min_images_per_srt) :
    ((compute_keyword_image_targets doc s).map Prod.snd).sum ≤ s.max_total_images ∧
    ∀ e ∈ compute_keyword_image_targets doc s, 1 ≤ e.2 := by
  unfold compute_keyword_image_targets
  by_cases hemp : (extract_keywords doc s.max_keywords).isEmpty
  · simp [hemp]; omega
  · simp only [hemp, Bool.false_eq_true, if_false]
    apply allocLoop_bounds
    · omega
    · omega

/-- Witness for C1 at a one-token document and the default settings. -/
theorem alloc_budget_invariant_witness :
    ((compute_keyword_image_targets [⟨false, "NOUN", "history"⟩] ⟨20, 3, 60, 20⟩).map
      Prod.snd).sum ≤ 60 ∧
    ∀ e ∈ compute_keyword_image_targets [⟨false, "NOUN", "history"⟩] ⟨20, 3, 60, 20⟩,
      1 ≤ e.2 :=
  alloc_budget_invariant [⟨false, "NOUN", "history"⟩] ⟨20, 3, 60, 20⟩
    (by decide) (by decide) (by decide) (by decide)

section FolderNameProofs

theorem mem_collapseWsAux (c : Char) :
    ∀ (l : List Char) (b : Bool), c ∈ collapseWsAux b l →
      c = '_' ∨ (c ∈ l ∧ isPySpace c = false) := by
  intro l
  induction l with
  | nil => intro b h; simp [collapseWsAux] at h
  | cons d rest ih =>
    intro b h
    by_cases hd : isPySpace d
    · have h' : c = '_' ∨ c ∈ collapseWsAux true rest := by
        cases b
        · simp [collapseWsAux, hd] at h
          tauto
        · simp [collapseWsAux, hd] at h
          exact Or.inr h
      rcases h' with h' | h'
      · exact Or.inl h'
      · rcases ih true h' with h1 | h1
        · exact Or.inl h1
        · exact Or.inr ⟨List.mem_cons_of_mem _ h1.1, h1.2⟩
    · have hd' : isPySpace d = false := by simpa using hd
      simp only [collapseWsAux, hd', Bool.false_eq_true, if_false, List.mem_cons] at h
      rcases h with h | h
      · subst h
        exact Or.inr ⟨List.mem_cons_self _ _, hd'⟩
      · rcases ih false h with h1 | h1
        · exact Or.inl h1
        · exact Or.inr ⟨List.mem_cons_of_mem _ h1.1, h1.2⟩

theorem folderClean_chars (s : String) :
    ∀ c ∈ folderClean s, outTokenChar c = true := by
  intro c hc
  rcases mem_collapseWsAux c _ _ hc with h | h
  · subst h; decide
  · have hkeep : folderKeepChar c = true := (List.mem_filter.1 h.1).2
    have hns := h.2
    simp [folderKeepChar] at hkeep
    simp [isPySpace] at hns
    simp only [outTokenChar, Bool.or_eq_true, Bool.and_eq_true,
      decide_eq_true_eq]
    omega

end FolderNameProofs

/-- Claim C8: for every string `s`, `safe_folder_name s` has length at most 80
and contains only characters from `[a-z0-9_-]` (so it is lowercase, with
whitespace runs collapsed to underscores and other characters stripped by the
cleaning pass); the fallback literal "keyword" is returned exactly when the
cleaned string is empty, and otherwise the result is the 80-character
truncation of the cleaned string; in particular
`safe_folder_name "Ancient  Rome!!"` is the underscore-joined token
"ancient_rome". -/
theorem safe_folder_name_spec (s : String) :
    (safe_folder_name s).length ≤ 80 ∧
    (∀ c ∈ (safe_folder_name s).toList, outTokenChar c = true) ∧
    (folderClean s = [] → safe_folder_name s = "keyword") ∧
    (folderClean s ≠ [] → (safe_folder_name s).toList = (folderClean s).take 80) ∧
    safe_folder_name "Ancient  Rome!!" = "ancient_rome" := by
  by_cases h : (folderClean s).isEmpty
  · have hval : safe_folder_name s = "keyword" := by
      simp [safe_folder_name, h]
    refine ⟨by rw [hval]; decide, by rw [hval]; decide, fun _ => hval, ?_, by decide⟩
    intro hne
    exact absurd (List.isEmpty_iff.1 h) hne
  · have hval : safe_folder_name s = ((folderClean s).take 80).asString := by
      simp [safe_folder_name, h]
    have htl : (safe_folder_name s).toList = (folderClean s).take 80 := by
      rw [hval]; rfl
    refine ⟨?_, ?_, ?_, fun _ => htl, by decide⟩
    · have hlen : (safe_folder_name s).length = (safe_folder_name s).toList.length := rfl
      rw [hlen, htl, List.length_take]
      omega
    · intro c hc
      rw [htl] at hc
      exact folderClean_chars s c (List.take_subset _ _ hc)
    · intro habs
      rw [habs] at h
      simp at h

/-- Witness for C8: the fallback branch at an input whose cleaned form is
empty, and the truncation branch at the concrete example. -/
theorem safe_folder_name_spec_witness :
    safe_folder_name "  !!  " = "keyword" ∧
    (safe_folder_name "Ancient  Rome!!").toList =
      (folderClean "Ancient  Rome!!").take 80 :=
  ⟨(safe_folder_name_spec "  !!  ").2.2.1 (by decide),
   (safe_folder_name_spec "Ancient  Rome!!").2.2.2.1 (by decide)⟩

section IdempotenceProofs

theorem outTokenChar_not_space {c : Char} (h : outTokenChar c = true) :
    isPySpace c = false := by
  simp [outTokenChar] at h
  simp [isPySpace]
  omega

theorem outTokenChar_keep {c : Char} (h : outTokenChar c = true) :
    folderKeepChar c = true := by
  simp [outTokenChar] at h
  simp [folderKeepChar]
  omega

theorem outTokenChar_lower {c : Char} (h : outTokenChar c = true) :
    lowerChar c = c := by
  simp [outTokenChar] at h
  unfold lowerChar
  rw [if_neg]
  simp
  omega

theorem dropWhile_eq_self_of {p : Char → Bool} :
    ∀ {l : List Char}, (∀ c ∈ l, p c = false) → l.dropWhile p = l := by
  intro l h
  cases l with
  | nil => rfl
  | cons d rest =>
    rw [List.dropWhile_cons, if_neg]
    simp [h d (List.mem_cons_self _ _)]

theorem pyStrip_eq_self {l : List Char} (h : ∀ c ∈ l, isPySpace c = false) :
    pyStrip l = l := by
  unfold pyStrip
  rw [dropWhile_eq_self_of h]
  rw [dropWhile_eq_self_of (by intro c hc; exact h c (List.mem_reverse.1 hc))]
  exact List.reverse_reverse l

theorem collapseWsAux_eq_self {l : List Char} (h : ∀ c ∈ l, isPySpace c = false) :
    ∀ b, collapseWsAux b l = l := by
  induction l with
  | nil => intro b; rfl
  | cons d rest ih =>
    intro b
    have hd := h d (List.mem_cons_self _ _)
    simp only [collapseWsAux, hd, Bool.false_eq_true, if_false]
    rw [ih (fun c hc => h c (List.mem_cons_of_mem _ hc)) false]

theorem folderClean_of_clean {l : List Char} (h : ∀ c ∈ l, outTokenChar c = true) :
    folderClean l.asString = l := by
  unfold folderClean
  have htl : (l.asString).toList = l := rfl
  rw [htl]
  rw [pyStrip_eq_self (fun c hc => outTokenChar_not_space (h c hc))]
  have hmap : l.map lowerChar = l := by
    have : l.map lowerChar = l.map id :=
      List.map_congr_left (fun c hc => outTokenChar_lower (h c hc))
    rw [this, List.map_id]
  rw [hmap]
  have hfil : l.filter folderKeepChar = l :=
    List.filter_eq_self.2 (fun c hc => outTokenChar_keep (h c hc))
  rw [hfil]
  exact collapseWsAux_eq_self (fun c hc => outTokenChar_not_space (h c hc)) false

end IdempotenceProofs

/-- Claim C9: `safe_folder_name` is idempotent. -/
theorem safe_folder_name_idem (s : String) :
    safe_folder_name (safe_folder_name s) = safe_folder_name s := by
  by_cases h : (folderClean s).isEmpty
  · have hval : safe_folder_name s = "keyword" := by simp [safe_folder_name, h]
    rw [hval]; decide
  · have hval : safe_folder_name s = ((folderClean s).take 80).asString := by
      simp [safe_folder_name, h]
    have hchars : ∀ c ∈ (folderClean s).take 80, outTokenChar c = true :=
      fun c hc => folderClean_chars s c (List.take_subset _ _ hc)
    have hclean : folderClean (safe_folder_name s) = (folderClean s).take 80 := by
      rw [hval]; exact folderClean_of_clean hchars
    have hne : (folderClean s).take 80 ≠ [] := by
      intro habs
      rcases List.take_eq_nil_iff.1 habs with h80 | hnil
      · exact absurd h80 (by decide)
      · rw [hnil] at h; simp at h
    have heq : safe_folder_name (safe_folder_name s) =
        if (folderClean (safe_folder_name s)).isEmpty then "keyword"
        else ((folderClean (safe_folder_name s)).take 80).asString := rfl
    rw [heq, hclean]
    rw [if_neg (by simpa [List.isEmpty_iff] using hne)]
    have hlen : ((folderClean s).take 80).length ≤ 80 := by
      rw [List.length_take]; omega
    rw [List.take_of_length_le hlen, ← hval]

section KeywordProofs

theorem lookup_isSome_of_mem_keys {t : String} :
    ∀ {freq : List (String × Nat)}, t ∈ freq.map Prod.fst →
      (freq.lookup t).isSome = true := by
  intro freq
  induction freq with
  | nil => intro h; simp at h
  | cons kv rest ih =>
    intro h
    simp only [List.map_cons, List.mem_cons] at h
    by_cases he : t = kv.1
    · simp [List.lookup, he]
    · have ht : t ∈ rest.map Prod.fst := by tauto
      have hbeq : (t == kv.1) = false := by simp [he]
      simpa [List.lookup, hbeq] using ih ht

theorem bump_keys_nodup {freq : List (String × Nat)} {t : String}
    (h : (freq.map Prod.fst).Nodup) : ((bump freq t).map Prod.fst).Nodup := by
  unfold bump
  split
  · have hmap : (freq.map (fun kv => if kv.1 = t then (kv.1, kv.2 + 1) else kv)).map Prod.fst
        = freq.map Prod.fst := by
      rw [List.map_map]
      apply List.map_congr_left
      intro kv _
      by_cases hkv : kv.1 = t <;> simp [hkv]
    rw [hmap]; exact h
  · next hns =>
    have hmem : t ∉ freq.map Prod.fst := by
      intro habs
      rw [lookup_isSome_of_mem_keys habs] at hns
      exact hns rfl
    simp [List.nodup_append, h, hmem]

theorem bump_keys_good {freq : List (String × Nat)} {t : String}
    (P : String → Prop) (h : ∀ kv ∈ freq, P kv.1) (ht : P t) :
    ∀ kv ∈ bump freq t, P kv.1 := by
  unfold bump
  split
  · intro kv hkv
    rcases List.mem_map.1 hkv with ⟨kv0, hkv0, heq⟩
    have : kv.1 = kv0.1 := by
      rw [← heq]; by_cases h0 : kv0.1 = t <;> simp [h0]
    rw [this]; exact h kv0 hkv0
  · intro kv hkv
    rcases List.mem_append.1 hkv with hm | hm
    · exact h kv hm
    · simp at hm; rw [hm]; exact ht

theorem tokenKey_good {tok : Token} {t : String} (h : tokenKey tok = some t) :
    3 ≤ t.toList.length ∧ kwMatch t.toList = true := by
  simp only [tokenKey] at h
  split at h
  · exact absurd h (by simp)
  split at h
  · exact absurd h (by simp)
  split at h
  · exact absurd h (by simp)
  split at h
  · rename_i hlen hkw
    have heq := Option.some.inj h
    subst heq
    constructor
    · have htl : (((pyStrip tok.lemma_.toList).map lowerChar).asString).toList
          = (pyStrip tok.lemma_.toList).map lowerChar := rfl
      rw [htl]
      omega
    · exact hkw
  · exact absurd h (by simp)

theorem buildFreq_inv :
    ∀ (doc : List Token) (freq : List (String × Nat)),
      (freq.map Prod.fst).Nodup →
      (∀ kv ∈ freq, 3 ≤ kv.1.toList.length ∧ kwMatch kv.1.toList = true) →
      ((buildFreq doc freq).map Prod.fst).Nodup ∧
        ∀ kv ∈ buildFreq doc freq, 3 ≤ kv.1.toList.length ∧ kwMatch kv.1.toList = true := by
  intro doc
  induction doc with
  | nil => intro freq h1 h2; exact ⟨h1, h2⟩
  | cons tok rest ih =>
    intro freq h1 h2
    cases htk : tokenKey tok with
    | none => simpa only [buildFreq, htk] using ih freq h1 h2
    | some t =>
      simpa only [buildFreq, htk] using
        ih (bump freq t) (bump_keys_nodup h1)
          (bump_keys_good (fun k => 3 ≤ k.toList.length ∧ kwMatch k.toList = true) h2
            (tokenKey_good htk))

theorem freqInsert_perm (a : String × Nat) :
    ∀ l : List (String × Nat), (freqInsert a l).Perm (a :: l) := by
  intro l
  induction l with
  | nil => exact List.Perm.refl _
  | cons b rest ih =>
    unfold freqInsert
    split
    · exact List.Perm.refl _
    · exact (ih.cons b).trans (List.Perm.swap a b rest)

theorem freqSort_perm : ∀ l : List (String × Nat), (freqSort l).Perm l := by
  intro l
  induction l with
  | nil => exact List.Perm.refl _
  | cons a rest ih =>
    exact (freqInsert_perm a (freqSort rest)).trans (ih.cons a)

theorem kwMatch_chars {l : List Char} (h : kwMatch l = true) :
    ∀ c ∈ l, isKwChar c = true := by
  cases l with
  | nil => simp [kwMatch] at h
  | cons d rest =>
    simp only [kwMatch, Bool.and_eq_true] at h
    intro c hc
    rcases List.mem_cons.1 hc with hc | hc
    · subst hc
      have := h.1
      simp [isKwStart] at this
      simp [isKwChar]
      omega
    · exact (List.all_eq_true.1 h.2) c hc

end KeywordProofs

/-- Claim C10: for every token list the NLP model produces and every
`max_keywords ≥ 0`, `extract_keywords` returns at most `max_keywords` entries,
with no duplicates, and every entry has length at least 3, starts with a
character in `[a-z0-9]`, and contains only characters from `[a-z0-9-_ ]`
(hence is lowercase). -/
theorem extract_keywords_spec (doc : List Token) (mk : Int) (hmk : 0 ≤ mk) :
    ((extract_keywords doc mk).length : Int) ≤ mk ∧
    (extract_keywords doc mk).Nodup ∧
    ∀ k ∈ extract_keywords doc mk,
      3 ≤ k.toList.length ∧ kwMatch k.toList = true ∧
      ∀ c ∈ k.toList, isKwChar c = true := by
  have hinv := buildFreq_inv doc [] (by simp) (by simp)
  have hperm : (freqSort (buildFreq doc [])).Perm (buildFreq doc []) :=
    freqSort_perm _
  have hkeys : ((freqSort (buildFreq doc [])).map Prod.fst).Perm
      ((buildFreq doc []).map Prod.fst) := hperm.map _
  have hr : extract_keywords doc mk
      = ((freqSort (buildFreq doc [])).map Prod.fst).take mk.toNat := by
    unfold extract_keywords
    rw [← List.map_take]
  refine ⟨?_, ?_, ?_⟩
  · rw [hr]
    have : (((freqSort (buildFreq doc [])).map Prod.fst).take mk.toNat).length
        ≤ mk.toNat := by
      rw [List.length_take]; omega
    omega
  · rw [hr]
    exact (hkeys.nodup_iff.2 hinv.1).sublist (List.take_sublist _ _)
  · intro k hk
    rw [hr] at hk
    have hk2 : k ∈ (freqSort (buildFreq doc [])).map Prod.fst :=
      List.take_subset _ _ hk
    rcases List.mem_map.1 hk2 with ⟨kv, hkv, heq⟩
    have hkv2 : kv ∈ buildFreq doc [] := hperm.mem_iff.1 hkv
    have hg := hinv.2 kv hkv2
    rw [← heq]
    exact ⟨hg.1, hg.2, kwMatch_chars hg.2⟩

/-- Witness for C10 at a concrete two-token document. -/
theorem extract_keywords_spec_witness :
    ((extract_keywords [⟨false, "NOUN", "history"⟩, ⟨true, "NOUN", "the"⟩] 5).length : Int) ≤ 5 ∧
    (extract_keywords [⟨false, "NOUN", "history"⟩, ⟨true, "NOUN", "the"⟩] 5).Nodup ∧
    ∀ k ∈ extract_keywords [⟨false, "NOUN", "history"⟩, ⟨true, "NOUN", "the"⟩] 5,
      3 ≤ k.toList.length ∧ kwMatch k.toList = true ∧
      ∀ c ∈ k.toList, isKwChar c = true :=
  extract_keywords_spec [⟨false, "NOUN", "history"⟩, ⟨true, "NOUN", "the"⟩] 5 (by decide)

section SettingsProofs

theorem lookup_append (l1 l2 : List (String × JVal)) (k : String) :
    (l1 ++ l2).lookup k = (l1.lookup k).or (l2.lookup k) := by
  induction l1 with
  | nil => simp [List.lookup]
  | cons kv rest ih =>
    rcases kv with ⟨a, b⟩
    by_cases he : k = a
    · simp [List.lookup, he]
    · have hbeq : (k == a) = false := by simp [he]
      simp [List.lookup, hbeq, ih]

theorem lookup_map_override (base upd : List (String × JVal)) (k : String) :
    (base.map (fun kv =>
      match upd.lookup kv.1 with
      | some w => (kv.1, w)
      | none => kv)).lookup k
    = (base.lookup k).map (fun v => (upd.lookup k).getD v) := by
  induction base with
  | nil => rfl
  | cons kv rest ih =>
    rcases kv with ⟨a, b⟩
    by_cases he : k = a
    · subst he
      cases hu : upd.lookup k with
      | none => simp [List.lookup, hu]
      | some w => simp [List.lookup, hu]
    · have hbeq : (k == a) = false := by simp [he]
      cases hu : upd.lookup a with
      | none => simpa [List.lookup, hu, hbeq] using ih
      | some w => simpa [List.lookup, hu, hbeq] using ih

theorem lookup_filter_none (l : List (String × JVal)) (p : String × JVal → Bool)
    (k : String) (h : l.lookup k = none) : (l.filter p).lookup k = none := by
  induction l with
  | nil => rfl
  | cons kv rest ih =>
    rcases kv with ⟨a, b⟩
    by_cases he : k = a
    · subst he
      simp [List.lookup] at h
    · have hbeq : (k == a) = false := by simp [he]
      simp only [List.lookup, hbeq] at h
      rw [List.filter_cons]
      split
      · simp only [List.lookup, hbeq]
        exact ih h
      · exact ih h

theorem lookup_filter_of_key (l : List (String × JVal)) (p : String × JVal → Bool)
    (k : String) (hp : ∀ kv : String × JVal, kv.1 = k → p kv = true) :
    (l.filter p).lookup k = l.lookup k := by
  induction l with
  | nil => rfl
  | cons kv rest ih =>
    rcases kv with ⟨a, b⟩
    by_cases he : k = a
    · subst he
      have hpk : p (k, b) = true := hp (k, b) rfl
      simp [List.filter_cons, hpk, List.lookup]
    · have hbeq : (k == a) = false := by simp [he]
      rw [List.filter_cons]
      split
      · simp only [List.lookup, hbeq]
        exact ih
      · simp only [List.lookup, hbeq]
        exact ih

theorem load_settings_keys (file : FileContent) :
    (load_settings file).map Prod.fst = DEFAULT_SETTINGS.map Prod.fst := by
  cases file with
  | absent => rfl
  | malformed => rfl
  | json data =>
    simp only [load_settings, dictUpdate]
    rw [List.map_append]
    have h2 : ((data.filter (fun kv => (DEFAULT_SETTINGS.lookup kv.1).isSome)).filter
        (fun kv => (DEFAULT_SETTINGS.lookup kv.1).isNone)) = [] := by
      rw [List.filter_filter]
      apply List.filter_eq_nil_iff.2
      intro kv _
      cases h : DEFAULT_SETTINGS.lookup kv.1 <;> simp [h]
    rw [h2]
    simp only [List.map_nil, List.append_nil, List.map_map]
    apply List.map_congr_left
    intro kv _
    cases h : (data.filter (fun kv => (DEFAULT_SETTINGS.lookup kv.1).isSome)).lookup kv.1 <;>
      simp [h]

theorem dictUpdate_unknown (base data : List (String × JVal)) (k : String)
    (h : base.lookup k = none) :
    (dictUpdate base data).lookup k = data.lookup k := by
  unfold dictUpdate
  rw [lookup_append, lookup_map_override, h]
  simp only [Option.map_none', Option.none_or]
  apply lookup_filter_of_key
  intro kv hkv
  rw [hkv, h]
  rfl

end SettingsProofs

/-- Claim C7 counterexample: `UnifiedApp._load_app_settings` is one of the two
loaders the claim covers, and it falsifies the claim at concrete inputs: a
malformed settings file makes it raise (the JSON parse error is not caught),
and a well-formed file with the unrecognized key "mystery_key" yields a map
that retains that key instead of ignoring it. -/
theorem settings_loading_counterexample :
    load_app_settings FileContent.malformed = Except.error "JSONDecodeError" ∧
    load_app_settings (FileContent.json [("mystery_key", JVal.jint 7)])
      = .ok (APP_DEFAULTS ++ [("mystery_key", JVal.jint 7)]) := by
  constructor
  · rfl
  · rfl

/-- Claim C7 (amended): `broll_core.load_settings` returns a settings map
without raising for every file content — its keys are exactly the recognized
keys (unknown keys ignored), a recognized key missing from the file keeps its
default value, and a malformed or absent file yields exactly the hardcoded
defaults. `UnifiedApp._load_app_settings`, by contrast, only treats an absent
file this way: a malformed file raises the JSON parse error, and a well-formed
file is merged without key filtering, so unrecognized keys are retained with
their loaded values. -/
theorem settings_loading_spec :
    (∀ file, (load_settings file).map Prod.fst = DEFAULT_SETTINGS.map Prod.fst) ∧
    (∀ (data : List (String × JVal)) (k : String) (v : JVal),
      DEFAULT_SETTINGS.lookup k = some v → data.lookup k = none →
      (load_settings (.json data)).lookup k = some v) ∧
    load_settings .malformed = DEFAULT_SETTINGS ∧
    load_settings .absent = DEFAULT_SETTINGS ∧
    load_app_settings .absent = .ok APP_DEFAULTS ∧
    load_app_settings .malformed = .error "JSONDecodeError" ∧
    (∀ (data : List (String × JVal)) (k : String), APP_DEFAULTS.lookup k = none →
      load_app_settings (.json data) = .ok (dictUpdate APP_DEFAULTS data) ∧
      (dictUpdate APP_DEFAULTS data).lookup k = data.lookup k) := by
  refine ⟨load_settings_keys, ?_, rfl, rfl, rfl, rfl, ?_⟩
  · intro data k v hrec hmiss
    simp only [load_settings, dictUpdate]
    rw [lookup_append, lookup_map_override, hrec]
    rw [lookup_filter_none data _ k hmiss]
    rfl
  · intro data k h
    exact ⟨rfl, dictUpdate_unknown APP_DEFAULTS data k h⟩

/-- Witness for C7 at a file holding one unrecognized key: the recognized key
"max_keywords" is absent from the file and keeps its default. -/
theorem settings_loading_spec_witness :
    DEFAULT_SETTINGS.lookup "max_keywords" = some (JVal.jint 20) ∧
    ([(("zzz" : String), JVal.jint 1)].lookup "max_keywords") = none ∧
    (load_settings (.json [("zzz", JVal.jint 1)])).lookup "max_keywords"
      = some (JVal.jint 20) :=
  ⟨by decide, by decide,
   settings_loading_spec.2.1 [("zzz", JVal.jint 1)] "max_keywords" (JVal.jint 20)
     (by decide) (by decide)⟩

section DriverProofs

theorem mkFilename_shape (out_dir keyword : String) (tbn : Bool)
    (timestamps : List String) (sc sv : Int) :
    ∃ b, mkFilename out_dir keyword tbn timestamps sc sv = pyJoin out_dir b := by
  unfold mkFilename
  split
  · exact ⟨_, rfl⟩
  · exact ⟨_, rfl⟩

theorem DInv_init (outd : String) : DInv outd ⟨[], 0, []⟩ := by
  refine ⟨le_refl 0, rfl, List.nodup_nil, ?_, ?_⟩ <;> simp

theorem procThumbs_inv (n : Int) (outd kw : String) (tbn : Bool) (ts : List String)
    (sc : Int) :
    ∀ (thumbs : List ThumbOutcome) (st : DState), DInv outd st →
      DInv outd (procThumbs n outd kw tbn ts sc thumbs st).1 := by
  intro thumbs
  induction thumbs with
  | nil => intro st h; exact h
  | cons t rest ih =>
    intro st h
    simp only [procThumbs]
    split
    · exact h
    split
    · exact ih st h
    split
    · exact h
    split
    · exact ih st h
    rename_i url hurl
    split
    · exact ih st h
    rename_i hnotseen
    split
    · apply ih
      obtain ⟨hA, hB, hC, hD, hE⟩ := h
      refine ⟨?_, ?_, ?_, ?_, ?_⟩
      · show (0 : Int) ≤ st.saved + 1
        omega
      · show ((st.writes ++ [(mkFilename outd kw tbn ts sc st.saved, url)]).length : Int)
            = st.saved + 1
        simp only [List.length_append, List.length_singleton]
        push_cast
        omega
      · show (((st.writes ++ [(mkFilename outd kw tbn ts sc st.saved, url)]).map
            Prod.snd)).Nodup
        have hnot : url ∉ st.writes.map Prod.snd := fun hmem => hnotseen (hD url hmem)
        simp only [List.map_append, List.map_cons, List.map_nil]
        simp [List.nodup_append, hC, hnot]
      · show ∀ u ∈ (st.writes ++ [(mkFilename outd kw tbn ts sc st.saved, url)]).map
            Prod.snd, u ∈ url :: st.seen
        intro u hu
        simp only [List.map_append, List.map_cons, List.map_nil, List.mem_append,
          List.mem_cons, List.not_mem_nil, or_false] at hu
        rcases hu with hu | hu
        · exact List.mem_cons_of_mem _ (hD u hu)
        · rw [hu]
          exact List.mem_cons_self _ _
      · show ∀ w ∈ st.writes ++ [(mkFilename outd kw tbn ts sc st.saved, url)],
            ∃ b, w.1 = pyJoin outd b
        intro w hw
        rcases List.mem_append.1 hw with hw | hw
        · exact hE w hw
        · simp only [List.mem_singleton] at hw
          rw [hw]
          exact mkFilename_shape outd kw tbn ts sc st.saved
    · apply ih
      obtain ⟨hA, hB, hC, hD, hE⟩ := h
      exact ⟨hA, hB, hC, fun u hu => List.mem_cons_of_mem _ (hD u hu), hE⟩

theorem procThumbs_saved_le (n : Int) (outd kw : String) (tbn : Bool)
    (ts : List String) (sc : Int) :
    ∀ (thumbs : List ThumbOutcome) (st : DState), st.saved ≤ n →
      (procThumbs n outd kw tbn ts sc thumbs st).1.saved ≤ n := by
  intro thumbs
  induction thumbs with
  | nil => intro st h; exact h
  | cons t rest ih =>
    intro st h
    simp only [procThumbs]
    split
    · exact h
    rename_i hsat
    split
    · exact ih st h
    split
    · exact h
    split
    · exact ih st h
    split
    · exact ih st h
    split
    · apply ih
      show st.saved + 1 ≤ n
      omega
    · exact ih _ h

theorem runScrolls_inv (env : DriverEnv) (n : Int) (outd kw : String) (tbn : Bool)
    (ts : List String) (sc : Int) :
    ∀ (b i : Nat) (st : DState), DInv outd st →
      DInv outd (runScrolls env n outd kw tbn ts sc i b st).1 := by
  intro b
  induction b with
  | zero => intro i st h; exact h
  | succ b ih =>
    intro i st h
    simp only [runScrolls]
    split
    · exact h
    rcases hp : procThumbs n outd kw tbn ts sc (env.thumbs i) st with ⟨st', flag⟩
    have hst' : DInv outd st' := by
      have hh := procThumbs_inv n outd kw tbn ts sc (env.thumbs i) st h
      rw [hp] at hh
      exact hh
    cases flag
    · show DInv outd (if st'.saved ≥ n then (st', false)
        else if env.scrollRaise i = true then (st', true)
        else runScrolls env n outd kw tbn ts sc (i + 1) b st').1
      split
      · exact hst'
      split
      · exact hst'
      · exact ih (i + 1) st' hst'
    · exact hst'

theorem runScrolls_saved_le (env : DriverEnv) (n : Int) (outd kw : String)
    (tbn : Bool) (ts : List String) (sc : Int) :
    ∀ (b i : Nat) (st : DState), st.saved ≤ n →
      (runScrolls env n outd kw tbn ts sc i b st).1.saved ≤ n := by
  intro b
  induction b with
  | zero => intro i st h; exact h
  | succ b ih =>
    intro i st h
    simp only [runScrolls]
    split
    · exact h
    rcases hp : procThumbs n outd kw tbn ts sc (env.thumbs i) st with ⟨st', flag⟩
    have hst' : st'.saved ≤ n := by
      have hh := procThumbs_saved_le n outd kw tbn ts sc (env.thumbs i) st h
      rw [hp] at hh
      exact hh
    cases flag
    · show (if st'.saved ≥ n then (st', false)
        else if env.scrollRaise i = true then (st', true)
        else runScrolls env n outd kw tbn ts sc (i + 1) b st').1.saved ≤ n
      split
      · exact hst'
      split
      · exact hst'
      · exact ih (i + 1) st' hst'
    · exact hst'

theorem writesOf_append (l1 l2 : List Ev) :
    writesOf (l1 ++ l2) = writesOf l1 ++ writesOf l2 := by
  simp [writesOf]

theorem writesOf_map_write (ws : List (String × String)) :
    writesOf (ws.map (fun w => Ev.write w.1 w.2)) = ws := by
  induction ws with
  | nil => rfl
  | cons a rest ih =>
    simp only [List.map_cons, writesOf, List.filterMap_cons] at ih ⊢
    rw [ih]

theorem gid_ok_state (env : DriverEnv) (kw outd : String) (n ms : Int) (tbn : Bool)
    (ts : List String) (sc : Int) (s : Int)
    (h : (google_images_download env kw outd n ms tbn ts sc).2 = .ok s) :
    ∃ st : DState,
      runScrolls env n outd kw tbn ts sc 0 ms.toNat ⟨[], 0, []⟩ = (st, false) ∧
      s = st.saved ∧
      writesOf (google_images_download env kw outd n ms tbn ts sc).1 = st.writes := by
  unfold google_images_download at h ⊢
  by_cases h1 : env.navRaise = true
  · simp [h1] at h
  by_cases h2 : env.inputFound = true
  · simp only [h1, h2, Bool.not_true, Bool.false_eq_true, if_false] at h ⊢
    rcases hrun : runScrolls env n outd kw tbn ts sc 0 ms.toNat ⟨[], 0, []⟩ with ⟨st, flag⟩
    rw [hrun] at h
    cases flag
    · refine ⟨st, rfl, ?_, ?_⟩
      · have h2 : (Except.ok st.saved : Except String Int) = Except.ok s := h
        exact (Except.ok.inj h2).symm
      · show writesOf ([Ev.ensureDir outd, Ev.openContext] ++
            st.writes.map (fun w => Ev.write w.1 w.2) ++
            [Ev.closeContext, Ev.stopDriver]) = st.writes
        rw [writesOf_append, writesOf_append, writesOf_map_write]
        simp [writesOf]
    · have h3 : (Except.error "exception" : Except String Int) = Except.ok s := h
      exact Except.noConfusion h3
  · have h2' : env.inputFound = false := by simpa using h2
    simp [h1, h2'] at h

theorem gid_ok_bounds (env : DriverEnv) (kw outd : String) (n ms : Int) (tbn : Bool)
    (ts : List String) (sc : Int) (s : Int) (hn : 0 ≤ n)
    (h : (google_images_download env kw outd n ms tbn ts sc).2 = .ok s) :
    0 ≤ s ∧ s ≤ n := by
  rcases gid_ok_state env kw outd n ms tbn ts sc s h with ⟨st, hrun, hs, _⟩
  have hinv := runScrolls_inv env n outd kw tbn ts sc ms.toNat 0 ⟨[], 0, []⟩ (DInv_init outd)
  have hle := runScrolls_saved_le env n outd kw tbn ts sc ms.toNat 0 ⟨[], 0, []⟩ hn
  rw [hrun] at hinv hle
  exact ⟨hs ▸ hinv.1, hs ▸ hle⟩

end DriverProofs

theorem gid_ensureDir (env : DriverEnv) (kw outd : String) (n ms : Int) (tbn : Bool)
    (ts : List String) (sc : Int) :
    Ev.ensureDir outd ∈ (google_images_download env kw outd n ms tbn ts sc).1 := by
  unfold google_images_download
  by_cases h1 : env.navRaise = true
  · simp [h1]
  by_cases h2 : env.inputFound = true
  · simp only [h1, h2, Bool.not_true, Bool.false_eq_true, if_false]
    rcases hrun : runScrolls env n outd kw tbn ts sc 0 ms.toNat ⟨[], 0, []⟩ with ⟨st, flag⟩
    cases flag <;> simp
  · have h2' : env.inputFound = false := by simpa using h2
    simp [h1, h2']

/-- Claim C4: within one invocation of the session driver, no two saved files
originate from the same source URL — every candidate URL already in the
session `seen` set is skipped and each remaining URL is added to `seen` before
its download is attempted, so the source URLs of the files written by the
invocation are pairwise distinct, on every environment and on every execution
path (success or exception). -/
theorem gid_dedup (env : DriverEnv) (keyword out_dir : String) (n ms : Int)
    (tbn : Bool) (ts : List String) (sc : Int) :
    ((writesOf (google_images_download env keyword out_dir n ms tbn ts sc).1).map
      Prod.snd).Nodup := by
  unfold google_images_download
  by_cases h1 : env.navRaise = true
  · simp [h1, writesOf]
  by_cases h2 : env.inputFound = true
  · simp only [h1, h2, Bool.not_true, Bool.false_eq_true, if_false]
    rcases hrun : runScrolls env n out_dir keyword tbn ts sc 0 ms.toNat ⟨[], 0, []⟩
      with ⟨st, flag⟩
    have hinv : DInv out_dir st := by
      have hh := runScrolls_inv env n out_dir keyword tbn ts sc ms.toNat 0 ⟨[], 0, []⟩
        (DInv_init out_dir)
      rw [hrun] at hh
      exact hh
    cases flag
    · show ((writesOf ([Ev.ensureDir out_dir, Ev.openContext] ++
          st.writes.map (fun w => Ev.write w.1 w.2) ++
          [Ev.closeContext, Ev.stopDriver])).map Prod.snd).Nodup
      rw [writesOf_append, writesOf_append, writesOf_map_write]
      simpa [writesOf] using hinv.2.2.1
    · show ((writesOf ([Ev.ensureDir out_dir, Ev.openContext] ++
          st.writes.map (fun w => Ev.write w.1 w.2) ++ [Ev.stopDriver])).map
          Prod.snd).Nodup
      rw [writesOf_append, writesOf_append, writesOf_map_write]
      simpa [writesOf] using hinv.2.2.1
  · have h2' : env.inputFound = false := by simpa using h2
    simp [h1, h2', writesOf]

/-- Claim C5: whenever a session-driver invocation with `images_needed = n ≥ 1`
returns normally with `savedCount`, then `0 ≤ savedCount ≤ n`, exactly
`savedCount` files are written, every written file lies in the target
directory, and the target directory is created (the `ensureDir` effect is in
the trace) — for every environment. -/
theorem gid_contract (env : DriverEnv) (keyword out_dir : String) (n ms : Int)
    (tbn : Bool) (ts : List String) (sc : Int) (hn : 1 ≤ n) (s : Int)
    (hok : (google_images_download env keyword out_dir n ms tbn ts sc).2 = .ok s) :
    0 ≤ s ∧ s ≤ n ∧
    ((writesOf (google_images_download env keyword out_dir n ms tbn ts sc).1).length :
      Int) = s ∧
    (∀ w ∈ writesOf (google_images_download env keyword out_dir n ms tbn ts sc).1,
      ∃ b, w.1 = pyJoin out_dir b) ∧
    Ev.ensureDir out_dir ∈ (google_images_download env keyword out_dir n ms tbn ts sc).1 := by
  obtain ⟨h0, h1⟩ := gid_ok_bounds env keyword out_dir n ms tbn ts sc s (by omega) hok
  rcases gid_ok_state env keyword out_dir n ms tbn ts sc s hok with ⟨st, hrun, hs, hw⟩
  have hinv : DInv out_dir st := by
    have hh := runScrolls_inv env n out_dir keyword tbn ts sc ms.toNat 0 ⟨[], 0, []⟩
      (DInv_init out_dir)
    rw [hrun] at hh
    exact hh
  refine ⟨h0, h1, ?_, ?_, gid_ensureDir env keyword out_dir n ms tbn ts sc⟩
  · rw [hw, hinv.2.1, hs]
  · rw [hw]
    exact hinv.2.2.2.2

/-- Witness for C5 at an environment with no thumbnails: the run returns
normally with zero saved images. -/
theorem gid_contract_witness :
    (1 : Int) ≤ 1 ∧
    (0 : Int) ≤ 0 ∧ (0 : Int) ≤ 1 ∧
    ((writesOf (google_images_download envNoThumbs "cat" "imgs" 1 1 false [] 0).1).length :
      Int) = 0 ∧
    (∀ w ∈ writesOf (google_images_download envNoThumbs "cat" "imgs" 1 1 false [] 0).1,
      ∃ b, w.1 = pyJoin "imgs" b) ∧
    Ev.ensureDir "imgs" ∈ (google_images_download envNoThumbs "cat" "imgs" 1 1 false [] 0).1 :=
  ⟨le_refl 1,
   gid_contract envNoThumbs "cat" "imgs" 1 1 false [] 0 (le_refl 1) 0 rfl⟩

theorem releasesAfter_writes (ws : List (String × String)) (tail : List Ev) :
    releasesAfter (ws.map (fun w => Ev.write w.1 w.2) ++ tail) = releasesAfter tail := by
  induction ws with
  | nil => rfl
  | cons a rest ih => simpa [releasesAfter] using ih

/-- Claim C6: on every execution path of the session driver — quota met, quota
not met after the scroll budget, and any exception raised after the browsing
context is opened, including the hard failure when no search-input selector
matches — the browsing context is released before the invocation completes:
every `openContext` event of the trace is followed by `closeContext` (the
explicit close on normal completion) or by `stopDriver` (the exit of the
`async with async_playwright()` block, which stops the driver and closes every
context it launched). The context never outlives the invocation. -/
theorem gid_teardown (env : DriverEnv) (keyword out_dir : String) (n ms : Int)
    (tbn : Bool) (ts : List String) (sc : Int) :
    releasesAfter (google_images_download env keyword out_dir n ms tbn ts sc).1 = true := by
  unfold google_images_download
  by_cases h1 : env.navRaise = true
  · simp [h1, releasesAfter, isRelease]
  by_cases h2 : env.inputFound = true
  · simp only [h1, h2, Bool.not_true, Bool.false_eq_true, if_false]
    rcases hrun : runScrolls env n out_dir keyword tbn ts sc 0 ms.toNat ⟨[], 0, []⟩
      with ⟨st, flag⟩
    cases flag
    · show releasesAfter ([Ev.ensureDir out_dir, Ev.openContext] ++
          st.writes.map (fun w => Ev.write w.1 w.2) ++
          [Ev.closeContext, Ev.stopDriver]) = true
      simp [releasesAfter, releasesAfter_writes, isRelease, List.any_append]
    · show releasesAfter ([Ev.ensureDir out_dir, Ev.openContext] ++
          st.writes.map (fun w => Ev.write w.1 w.2) ++ [Ev.stopDriver]) = true
      simp [releasesAfter, releasesAfter_writes, isRelease, List.any_append]
  · have h2' : env.inputFound = false := by simpa using h2
    simp [h1, h2', releasesAfter, isRelease]

/-- Claim C3: for a concept with quota `n ≥ 1` whose primary attempt returns
`k` saved images: if `k < n`, the orchestrator issues a second invocation with
query `concept ++ " Wikipedia"`, requesting exactly `n - k`, into the same
directory (each invocation starts a fresh session whose `seen` set is empty,
by definition of `google_images_download`); if `k = n` the second invocation is
skipped; and whenever the orchestrator returns a total, that total is at most
`n`. -/
theorem fallback_shortfall (env1 env2 : DriverEnv) (concept images_dir : String)
    (n ms : Int) (ts : List String) (ic : Int) (hn : 1 ≤ n) (k : Int)
    (hk : (google_images_download env1 concept images_dir n ms true ts ic).2 = .ok k) :
    (k < n →
      (conceptDownload env1 env2 concept images_dir n ms ts ic).1 =
        [⟨concept, images_dir, n, .ok k⟩,
         ⟨concept ++ " Wikipedia", images_dir, n - k,
          (google_images_download env2 (concept ++ " Wikipedia") images_dir (n - k) ms
            true ts (ic + k)).2⟩]) ∧
    (k = n →
      (conceptDownload env1 env2 concept images_dir n ms ts ic).1 =
        [⟨concept, images_dir, n, .ok k⟩]) ∧
    (∀ t, (conceptDownload env1 env2 concept images_dir n ms ts ic).2 = .ok t →
      t ≤ n) := by
  have hbounds := gid_ok_bounds env1 concept images_dir n ms true ts ic k (by omega) hk
  rcases hg1 : google_images_download env1 concept images_dir n ms true ts ic
    with ⟨tr1, r1⟩
  rw [hg1] at hk
  have hr1 : r1 = .ok k := hk
  subst hr1
  simp only [conceptDownload, hg1]
  refine ⟨?_, ?_, ?_⟩
  · intro hklt
    rw [if_pos (by omega : n - k > 0)]
    rcases hg2 : google_images_download env2 (concept ++ " Wikipedia") images_dir
        (n - k) ms true ts (ic + k) with ⟨tr2, r2⟩
    cases r2 <;> rfl
  · intro hkeq
    subst hkeq
    rw [if_neg (by omega : ¬ k - k > 0)]
  · by_cases hpos : n - k > 0
    · rw [if_pos hpos]
      rcases hg2 : google_images_download env2 (concept ++ " Wikipedia") images_dir
          (n - k) ms true ts (ic + k) with ⟨tr2, r2⟩
      cases r2 with
      | error e =>
        intro t ht
        have ht2 : (Except.error e : Except String Int) = Except.ok t := ht
        exact Except.noConfusion ht2
      | ok ws =>
        intro t ht
        have ht2 : (Except.ok (k + ws) : Except String Int) = Except.ok t := ht
        have htv := Except.ok.inj ht2
        have hg2v : (google_images_download env2 (concept ++ " Wikipedia") images_dir
            (n - k) ms true ts (ic + k)).2 = .ok ws := by
          rw [hg2]
        have hwb := gid_ok_bounds env2 (concept ++ " Wikipedia") images_dir (n - k) ms
          true ts (ic + k) ws (by omega) hg2v
        omega
    · rw [if_neg hpos]
      intro t ht
      have ht2 : (Except.ok (k + 0) : Except String Int) = Except.ok t := ht
      have htv := Except.ok.inj ht2
      omega

/-- Witness for C3 at an environment with no thumbnails, where the primary
attempt saves zero of one requested image and the fallback is issued for the
full shortfall. -/
theorem fallback_shortfall_witness :
    (conceptDownload envNoThumbs envNoThumbs "cat" "imgs" 1 1 [] 0).1 =
      [⟨"cat", "imgs", 1, .ok 0⟩,
       ⟨"cat" ++ " Wikipedia", "imgs", 1 - 0,
        (google_images_download envNoThumbs ("cat" ++ " Wikipedia") "imgs" (1 - 0) 1
          true [] (0 + 0)).2⟩] :=
  (fallback_shortfall envNoThumbs envNoThumbs "cat" "imgs" 1 1 [] 0 (le_refl 1) 0
    rfl).1 (by norm_num)

theorem harvest_aux (envs : Nat → DriverEnv × DriverEnv) (s : JobSettings)
    (ts : List String) (dir : String) :
    ∀ (concepts : List String) (i : Nat) (total counter : Int),
      total < s.max_total_images →
      ∀ rec ∈ (downloadImagesLoop envs s ts dir concepts i total counter).1,
        rec.totalBefore < s.max_total_images ∧
        rec.effNeed = min (max 1 s.images_per_concept)
          (s.max_total_images - rec.totalBefore) := by
  intro concepts
  induction concepts with
  | nil =>
    intro i total counter htot rec hrec
    simp [downloadImagesLoop] at hrec
  | cons c rest ih =>
    intro i total counter htot rec hrec
    simp only [downloadImagesLoop] at hrec
    set ipc0 := max 1 s.images_per_concept with hipc0
    set ipc := if total + ipc0 > s.max_total_images
      then max 1 (s.max_total_images - total) else ipc0 with hipc
    have heff : ipc = min ipc0 (s.max_total_images - total) := by
      rw [hipc]
      split <;> omega
    have hpos : ¬ ipc ≤ 0 := by
      rw [heff]
      omega
    rw [if_neg hpos] at hrec
    rcases hcd : conceptDownload (envs i).1 (envs i).2 c dir ipc
        s.max_scrolls_per_keyword ts counter with ⟨atts, res⟩
    rw [hcd] at hrec
    cases res with
    | error e =>
      have hrec2 : rec ∈ [ConceptRec.mk c ipc total atts] := hrec
      simp only [List.mem_singleton] at hrec2
      subst hrec2
      exact ⟨htot, heff⟩
    | ok saved_total =>
      dsimp only at hrec
      by_cases hstop : total + saved_total ≥ s.max_total_images
      · rw [if_pos hstop] at hrec
        have hrec2 : rec ∈ [ConceptRec.mk c ipc total atts] := hrec
        simp only [List.mem_singleton] at hrec2
        subst hrec2
        exact ⟨htot, heff⟩
      · rw [if_neg hstop] at hrec
        have hrec2 : rec ∈ ConceptRec.mk c ipc total atts ::
            (downloadImagesLoop envs s ts dir rest (i + 1) (total + saved_total)
              (counter + saved_total)).1 := hrec
        rcases List.mem_cons.1 hrec2 with hr | hr
        · subst hr
          exact ⟨htot, heff⟩
        · exact ih (i + 1) (total + saved_total) (counter + saved_total) (by omega) rec hr

/-- Claim C2: in the harvest loop of `_download_images`, for every concept
list whose per-concept demands (`max 1 images_per_concept` each) sum to more
than `max_total_images`, every concept iteration that is begun starts with a
running total strictly below `max_total_images` (so no new concept attempt
begins once the budget is reached, even if concepts remain), and its effective
need is exactly the per-concept demand clamped to the remaining budget
`max_total_images - totalBefore`. -/
theorem harvest_early_stop (envs : Nat → DriverEnv × DriverEnv) (s : JobSettings)
    (ts : List String) (dir : String) (concepts : List String)
    (hmax : 1 ≤ s.max_total_images)
    (hdemand : s.max_total_images <
      (concepts.length : Int) * max 1 s.images_per_concept) :
    ∀ rec ∈ (download_images envs s ts dir concepts).1,
      rec.totalBefore < s.max_total_images ∧
      rec.effNeed = min (max 1 s.images_per_concept)
        (s.max_total_images - rec.totalBefore) :=
  fun rec hrec => harvest_aux envs s ts dir concepts 0 0 0 (by omega) rec hrec

/-- Witness for C2 with one concept demanding 3 images against a global cap of
2: the single iteration starts at total 0 and is clamped to an effective need
of 2. -/
theorem harvest_early_stop_witness :
    (0 : Int) < 2 ∧ (2 : Int) = min (max 1 3) (2 - 0) :=
  harvest_early_stop (fun _ => (envNoThumbs, envNoThumbs)) ⟨3, 2, 1⟩ [] "imgs" ["a"]
    (by norm_num) (by norm_num)
    ⟨"a", 2, 0, [⟨"a", "imgs", 2, .ok 0⟩, ⟨"a" ++ " Wikipedia", "imgs", 2, .ok 0⟩]⟩
    (by
      show (⟨"a", 2, 0, [⟨"a", "imgs", 2, .ok 0⟩, ⟨"a" ++ " Wikipedia", "imgs", 2,
        .ok 0⟩]⟩ : ConceptRec) ∈
        [(⟨"a", 2, 0, [⟨"a", "imgs", 2, .ok 0⟩, ⟨"a" ++ " Wikipedia", "imgs", 2,
          .ok 0⟩]⟩ : ConceptRec)]
      exact List.mem_singleton.2 rfl)
